import Mathlib

/-!
Verification of the core of `src/src/packet/symmetrically_encrypted.js`:
the Symmetrically Encrypted Data packet (Tag 9) and the `Key` aggregate.

The file shallowly embeds the JavaScript source: each JS method becomes a
Lean function over explicit state, collaborators that live outside the
source file (`crypto.cfb`, the packetlist parser, per-packet secret-key
decryption, public-portion derivation) are passed in as function
parameters, and JS `null`-dereference failures (`TypeError`) are made
explicit with `Except`.
-/

namespace OpenPGP

/-- Packet tags from `enums.packet` as used by the source file
(public_key, secret_key, public_subkey, secret_subkey, and the
remaining kinds collapsed into representative constructors). -/
inductive Tag where
  | publicKey
  | secretKey
  | publicSubkey
  | secretSubkey
  | signatureTag
  | userid
  | symmetricallyEncrypted
  | other
  deriving DecidableEq, Repr

/-- Public-key algorithm names from `enums.publicKey` (the source converts
the numeric ids to names with `enums.read` and compares names). -/
inductive Algorithm where
  | rsa_encrypt_sign
  | rsa_encrypt
  | rsa_sign
  | elgamal
  | dsa
  | otherAlg
  deriving DecidableEq, Repr

/-- A key ID: fixed identifier supporting equality (`keyid.equals`). -/
structure KeyId where
  val : Nat
  deriving DecidableEq, Repr

/-- A packet of the key's packetlist: its tag, its public-key algorithm
name, its key ID (`getKeyId()`), and opaque body bytes. -/
structure Packet where
  tag : Tag
  algorithm : Algorithm
  keyId : KeyId
  body : List Nat
  deriving DecidableEq, Repr

/-- A JavaScript runtime failure surfaced by the embedding: dereferencing
`null` (e.g. calling `.getKeyId()` or reading `.algorithm` on `null`). -/
inductive JsError where
  | typeError
  deriving DecidableEq, Repr

/-! ## The Symmetrically Encrypted Data packet (`packet_symmetrically_encrypted`) -/

/-- The collaborators used by `packet_symmetrically_encrypted`:
`crypto.cfb.encrypt(prefixrandom, algo, data, key, resync)`,
`crypto.cfb.decrypt(algo, key, ciphertext, resync)`,
`crypto.getPrefixRandom(algo)`, and the inner packetlist's
`read`/`write`.  `P` is the type of the inner decoded packets. -/
structure CfbModel (P : Type) where
  cfbEncrypt : List Nat → Nat → List Nat → List Nat → Bool → List Nat
  cfbDecrypt : Nat → List Nat → List Nat → Bool → List Nat
  getPrefixRandom : Nat → List Nat
  plistRead : List Nat → List P
  plistWrite : List P → List Nat

/-- State of a `packet_symmetrically_encrypted` object: the field
`this.encrypted` (initially `null`, hence an `Option`) and the inner
packetlist `this.packets` (its current decoded contents). -/
structure SymEnc (P : Type) where
  encrypted : Option (List Nat)
  packets : List P
  deriving DecidableEq, Repr

/-- Method `this.read = function(bytes) \x7b this.encrypted = bytes; \x7d`. -/
def SymEnc.readBytes {P : Type} (s : SymEnc P) (bytes : List Nat) : SymEnc P :=
  { s with encrypted := some bytes }

/-- Method `this.write = function() \x7b return this.encrypted; \x7d`. -/
def SymEnc.writeBytes {P : Type} (s : SymEnc P) : Option (List Nat) :=
  s.encrypted

/-- Method `this.decrypt(sessionKeyAlgorithm, key)`: runs
`crypto.cfb.decrypt(sessionKeyAlgorithm, key, this.encrypted, true)` and
feeds the result to `this.packets.read`.  When `this.encrypted` is still
`null` the collaborator call is outside the modelled domain, returned as
`none`; the source never clears `this.encrypted` here. -/
def symDecrypt {P : Type} (m : CfbModel P) (algo : Nat) (key : List Nat)
    (s : SymEnc P) : Option (SymEnc P) :=
  match s.encrypted with
  | none => none
  | some ct => some { s with packets := m.plistRead (m.cfbDecrypt algo key ct true) }

/-- Method `this.encrypt(algo, key)`: serializes `this.packets.write()` and sets
`this.encrypted = crypto.cfb.encrypt(crypto.getPrefixRandom(algo), algo,
data, key, true)`; the inner packetlist is left in place. -/
def symEncrypt {P : Type} (m : CfbModel P) (algo : Nat) (key : List Nat)
    (s : SymEnc P) : SymEnc P :=
  { s with
    encrypted :=
      some (m.cfbEncrypt (m.getPrefixRandom algo) algo (m.plistWrite s.packets) key true) }

/-- The spec's `Opaque(bytes)` state: ciphertext held, no decoded stream. -/
def specOpaque {P : Type} (s : SymEnc P) : Prop :=
  s.encrypted.isSome = true ∧ s.packets = []

/-- The spec's `Decoded(PacketStream)` state: decoded stream held, no
ciphertext ("never both"). -/
def specDecoded {P : Type} (s : SymEnc P) : Prop :=
  s.encrypted = none ∧ s.packets ≠ []

/-! ## The `Key` aggregate -/

/-- Constructor `function Key(packetlist)`: the aggregate owns one packetlist. -/
structure Key where
  packets : List Packet
  deriving DecidableEq, Repr

/-- Method `Key.prototype.getKeyPacket`: first packet whose tag is
`public_key` or `secret_key`; `null` when absent. -/
def getKeyPacket (k : Key) : Option Packet :=
  k.packets.find? (fun p => decide (p.tag = Tag.publicKey ∨ p.tag = Tag.secretKey))

/-- Method `Key.prototype.getSubkeyPackets`: all packets tagged `public_subkey`
or `secret_subkey`, in stream order. -/
def getSubkeyPackets (k : Key) : List Packet :=
  k.packets.filter (fun p => decide (p.tag = Tag.publicSubkey ∨ p.tag = Tag.secretSubkey))

/-- Method `Key.prototype.getAllKeyPackets`:
`[this.getKeyPacket()].concat(this.getSubkeyPackets())` — the head slot
holds JS `null` (here `none`) when no primary key packet exists. -/
def getAllKeyPackets (k : Key) : List (Option Packet) :=
  getKeyPacket k :: (getSubkeyPackets k).map some

/-- Method `Key.prototype.getKeyIds`: pushes `keys[i].getKeyId()` for every
element of `getAllKeyPackets()`; calling `getKeyId()` on a `null` head
is a JS `TypeError`. -/
def getKeyIds (k : Key) : Except JsError (List KeyId) :=
  (getAllKeyPackets k).mapM (fun op =>
    match op with
    | some p => Except.ok p.keyId
    | none => Except.error JsError.typeError)

/-- Helper `function findKey(keys, keyIds)`: outer loop over `keys`, inner loop
over `keyIds`, returning the first key whose `getKeyId()` equals some
candidate; `null` when none matches. -/
def findKey (keys : List Packet) (keyIds : List KeyId) : Option Packet :=
  keys.find? (fun p => keyIds.any (fun kid => decide (p.keyId = kid)))

/-- Method `Key.prototype.getPublicKeyPacket(keyIds)`: filters the packetlist by
tags `public_key, public_subkey`, then `findKey`. -/
def getPublicKeyPacket (k : Key) (keyIds : List KeyId) : Option Packet :=
  findKey
    (k.packets.filter (fun p => decide (p.tag = Tag.publicKey ∨ p.tag = Tag.publicSubkey)))
    keyIds

/-- Method `Key.prototype.getPrivateKeyPacket(keyIds)`: filters the packetlist by
tags `secret_key, secret_subkey`, then `findKey`. -/
def getPrivateKeyPacket (k : Key) (keyIds : List KeyId) : Option Packet :=
  findKey
    (k.packets.filter (fun p => decide (p.tag = Tag.secretKey ∨ p.tag = Tag.secretSubkey)))
    keyIds

/-- Method `Key.prototype.isPublic`: nonempty `filterByTag(enums.packet.public_key)`. -/
def isPublic (k : Key) : Bool :=
  (k.packets.filter (fun p => decide (p.tag = Tag.publicKey))).length != 0

/-- Modelled from the spec: `enums.js` is a collaborator outside the
sources, and the source's `isPrivate` filters by `enums.packet.private_key`;
the spec directs that this `private_key` tag is a synonym of `secret_key`
("the tag checked for isPrivate must be secret_key ... treat the two as
synonyms"). -/
def privateKeyTag : Tag := Tag.secretKey

/-- Method `Key.prototype.isPrivate`: nonempty
`filterByTag(enums.packet.private_key)` (see `privateKeyTag`). -/
def isPrivate (k : Key) : Bool :=
  (k.packets.filter (fun p => decide (p.tag = privateKeyTag))).length != 0

/-- Modelled from the spec: the packet collaborators `writePublicKey` and
the `packet.public_key()/public_subkey()` constructors plus `read(bytes)`
are outside the sources; the spec says `toPublic` derives "the
corresponding public_key/public_subkey packet (collaborator operation:
extract public portion, omit secret material)".  The derivation of the
non-tag fields is an arbitrary collaborator `derive`; the constructor
fixes the tag of the freshly built packet. -/
def derivedPublicPacket (derive : Packet → Algorithm × KeyId × List Nat)
    (t : Tag) (p : Packet) : Packet :=
  { tag := t
    algorithm := (derive p).1
    keyId := (derive p).2.1
    body := (derive p).2.2 }

/-- Method `Key.prototype.toPublic`: for each position of the packetlist, a
packet tagged `secret_key` is replaced in place by a freshly constructed
`public_key` packet read from `writePublicKey()`, and a packet tagged
`secret_subkey` by a `public_subkey` packet; the source's second `if`
re-tests the (possibly replaced) element, but a replacement is tagged
`public_key`, never `secret_subkey`, so the two branches are disjoint;
this is the loop body at one position. -/
def toPublicStep (derive : Packet → Algorithm × KeyId × List Nat) (p : Packet) : Packet :=
  if p.tag = Tag.secretKey then derivedPublicPacket derive Tag.publicKey p
  else if p.tag = Tag.secretSubkey then derivedPublicPacket derive Tag.publicSubkey p
  else p

/-- The position-wise replacement pass of `Key.prototype.toPublic` (see
`toPublicStep` for the loop body). -/
def toPublic (derive : Packet → Algorithm × KeyId × List Nat) (k : Key) : Key :=
  { packets := k.packets.map (toPublicStep derive) }

/-- The `signing` list of `getSigningKeyPacket`:
`[rsa_encrypt_sign, rsa_sign, dsa]` (converted to names by `enums.read`). -/
def signingAlgorithms : List Algorithm :=
  [Algorithm.rsa_encrypt_sign, Algorithm.rsa_sign, Algorithm.dsa]

/-- The loop of `getSigningKeyPacket` over `getAllKeyPackets()`: reading
`keys[i].algorithm` on the `null` head is a JS `TypeError`. -/
def findSigningLoop : List (Option Packet) → Except JsError (Option Packet)
  | [] => Except.ok none
  | none :: _ => Except.error JsError.typeError
  | some p :: rest =>
    if signingAlgorithms.any (fun a => decide (p.algorithm = a)) then Except.ok (some p)
    else findSigningLoop rest

/-- Method `Key.prototype.getSigningKeyPacket`: first element of
`getAllKeyPackets()` whose `algorithm` is in the signing set; `null` when
the loop finishes. -/
def getSigningKeyPacket (k : Key) : Except JsError (Option Packet) :=
  findSigningLoop (getAllKeyPackets k)

/-- Predicate `isValidEncryptionKey(key)` inside `getEncryptionKeyPacket`: the
algorithm is neither `dsa` nor `rsa_sign`. -/
def isValidEncryptionKey (p : Packet) : Bool :=
  decide (p.algorithm ≠ Algorithm.dsa) && decide (p.algorithm ≠ Algorithm.rsa_sign)

/-- Method `Key.prototype.getEncryptionKeyPacket`: first subkey passing
`isValidEncryptionKey`; otherwise `this.getKeyPacket()` is tested — when
that is `null`, reading `.algorithm` on it is a JS `TypeError`. -/
def getEncryptionKeyPacket (k : Key) : Except JsError (Option Packet) :=
  match (getSubkeyPackets k).find? isValidEncryptionKey with
  | some s => Except.ok (some s)
  | none =>
    match getKeyPacket k with
    | none => Except.error JsError.typeError
    | some p => if isValidEncryptionKey p then Except.ok (some p) else Except.ok none

/-- A packet is selected by `filterByTag(secret_key, secret_subkey)`. -/
def isSecretTagged (p : Packet) : Bool :=
  decide (p.tag = Tag.secretKey ∨ p.tag = Tag.secretSubkey)

/-- The loop of `Key.prototype.decrypt` over
`filterByTag(secret_key, secret_subkey)`:  the filtered list holds
references into the packetlist, and each `keys[i].decrypt(passphrase)`
(a secret-key-packet collaborator, here `dec`) mutates its packet in
place and returns a success flag; on the first `false` the loop returns
`false` at once, leaving the remaining packets untouched.  The embedding
fuses the filter and the in-place mutation into one ordered pass over the
packetlist: non-secret packets are skipped, a secret packet is replaced
by its decrypted version on success, and the pass stops on failure. -/
def decryptLoop (dec : Packet → Option Packet) : List Packet → Bool × List Packet
  | [] => (true, [])
  | p :: ps =>
    if isSecretTagged p then
      match dec p with
      | some p2 =>
        let r := decryptLoop dec ps
        (r.1, p2 :: r.2)
      | none => (false, p :: ps)
    else
      let r := decryptLoop dec ps
      (r.1, p :: r.2)

/-- Method `Key.prototype.decrypt(passphrase)`: runs the loop above; the Boolean
is the return value, the list is the mutated packetlist. -/
def keyDecrypt (dec : Packet → Option Packet) (k : Key) : Bool × Key :=
  ((decryptLoop dec k.packets).1, { packets := (decryptLoop dec k.packets).2 })

/-! ## Spec-side definitions used by refinement-style claims -/

/-- Follows the claim's words for C4: the first subkey, in stream order,
whose algorithm is neither DSA nor RSA-sign-only; else the primary key
packet when it passes the same exclusion; else none. -/
def encryptionKeyPacketSpec (k : Key) : Option Packet :=
  match (getSubkeyPackets k).find?
      (fun p => decide (p.algorithm ≠ Algorithm.dsa ∧ p.algorithm ≠ Algorithm.rsa_sign)) with
  | some s => some s
  | none =>
    match getKeyPacket k with
    | some p =>
      if p.algorithm ≠ Algorithm.dsa ∧ p.algorithm ≠ Algorithm.rsa_sign then some p else none
    | none => none

/-- Follows the claim's words for C5: the first packet, primary first and
then subkeys in stream order, whose algorithm is one of RSA-encrypt-sign,
RSA-sign, DSA; none when no key packet qualifies. -/
def signingKeyPacketSpec (k : Key) : Option Packet :=
  ((getKeyPacket k).toList ++ getSubkeyPackets k).find?
    (fun p => decide (p.algorithm = Algorithm.rsa_encrypt_sign ∨
      p.algorithm = Algorithm.rsa_sign ∨ p.algorithm = Algorithm.dsa))

/-- Follows the claim's words for C6: filter the owned packets to the
role's tags, then the first packet whose key ID equals some candidate. -/
def findByKeyIdsSpec (rolePackets : List Packet) (keyIds : List KeyId) : Option Packet :=
  rolePackets.find? (fun p => decide (∃ kid ∈ keyIds, p.keyId = kid))

/-- Number of primary key packets (tag `public_key` or `secret_key`) in
the aggregate; a well-formed aggregate has exactly one. -/
def primaryCount (k : Key) : Nat :=
  (k.packets.filter (fun p => decide (p.tag = Tag.publicKey ∨ p.tag = Tag.secretKey))).length

/-! ## Concrete instances used by witnesses and counterexamples -/

/-- A collaborator model whose CFB transforms and packetlist codec are
the identity on byte lists (inner packet type `Nat`). -/
def c2Model : CfbModel Nat :=
  { cfbEncrypt := fun _ _ data _ _ => data
    cfbDecrypt := fun _ _ ct _ => ct
    getPrefixRandom := fun _ => []
    plistRead := fun b => b
    plistWrite := fun l => l }

/-- A container holding ciphertext `[1, 2]` and no decoded packets. -/
def c2s0 : SymEnc Nat := { encrypted := some [1, 2], packets := [] }

/-- The container obtained from `c2s0` by a successful `decrypt`. -/
def c2s1 : SymEnc Nat := { encrypted := some [1, 2], packets := [1, 2] }

/-- A collaborator model whose CFB encryption shifts each byte up by one
and whose decryption shifts it back down. -/
def c9Model : CfbModel Nat :=
  { cfbEncrypt := fun _ _ data _ _ => data.map (fun x => x + 1)
    cfbDecrypt := fun _ _ ct _ => ct.map (fun x => x - 1)
    getPrefixRandom := fun _ => [5]
    plistRead := fun b => b
    plistWrite := fun l => l }

/-- A container with a decoded inner stream `[3, 4, 5]`. -/
def c9s : SymEnc Nat := { encrypted := none, packets := [3, 4, 5] }

/-- A secret primary key packet (RSA-sign, key ID 1). -/
def pSec1 : Packet :=
  { tag := Tag.secretKey, algorithm := Algorithm.rsa_sign, keyId := ⟨1⟩, body := [0] }

/-- A secret subkey packet (RSA-encrypt-sign, key ID 2). -/
def pSub2 : Packet :=
  { tag := Tag.secretSubkey, algorithm := Algorithm.rsa_encrypt_sign, keyId := ⟨2⟩, body := [1] }

/-- A second secret subkey packet (RSA-encrypt-sign, key ID 3). -/
def pSub3 : Packet :=
  { tag := Tag.secretSubkey, algorithm := Algorithm.rsa_encrypt_sign, keyId := ⟨3⟩, body := [0] }

/-- A user-id packet. -/
def pUid : Packet :=
  { tag := Tag.userid, algorithm := Algorithm.otherAlg, keyId := ⟨9⟩, body := [7] }

/-- A two-subkey secret key aggregate: primary, then two subkeys. -/
def kC3 : Key := { packets := [pSec1, pSub2, pSub3] }

/-- A per-packet decrypt collaborator that succeeds (rewriting the body
to `[9]`) exactly on packets whose body is `[0]`. -/
def decC3 : Packet → Option Packet :=
  fun p => if p.body = [0] then some { p with body := [9] } else none

/-- A per-packet decrypt collaborator that always fails. -/
def decFail : Packet → Option Packet := fun _ => none

/-- A DSA secret primary key packet (key ID 4). -/
def pDsa : Packet :=
  { tag := Tag.secretKey, algorithm := Algorithm.dsa, keyId := ⟨4⟩, body := [2] }

/-- An aggregate whose only key packet is a DSA primary key. -/
def kDsa : Key := { packets := [pDsa] }

/-- Aggregate of the C5 scenario: RSA-sign secret primary plus
RSA-encrypt-sign secret subkey. -/
def kC5 : Key := { packets := [pSec1, pSub2] }

/-- A public primary key packet (RSA-encrypt-sign, key ID 5). -/
def pPub5 : Packet :=
  { tag := Tag.publicKey, algorithm := Algorithm.rsa_encrypt_sign, keyId := ⟨5⟩, body := [3] }

/-- A public subkey packet (RSA-encrypt, key ID 6). -/
def pPub6 : Packet :=
  { tag := Tag.publicSubkey, algorithm := Algorithm.rsa_encrypt, keyId := ⟨6⟩, body := [4] }

/-- A purely public aggregate: public primary plus public subkey. -/
def kPub : Key := { packets := [pPub5, pPub6, pUid] }

/-- An aggregate with no primary key packet: a lone public subkey. -/
def kC8 : Key := { packets := [pPub6] }

/-- A concrete public-portion derivation for `toPublic`: keeps algorithm
and key ID and empties the body (the secret material). -/
def deriveC7 : Packet → Algorithm × KeyId × List Nat :=
  fun p => (p.algorithm, p.keyId, [])

/-- A mixed aggregate used for the `toPublic` witness. -/
def kC7 : Key := { packets := [pSec1, pUid, pSub2] }

/-! ## Theorems -/

/-- A single-tag filter of the packetlist is nonempty exactly when a
packet with that tag exists among the owned packets. -/
theorem filter_tag_nonempty_iff (k : Key) (t : Tag) :
    ((k.packets.filter (fun p => decide (p.tag = t))).length != 0) = true ↔
      ∃ p ∈ k.packets, p.tag = t := by
  simp only [bne_iff_ne, ne_eq, List.length_eq_zero, List.filter_eq_nil_iff,
    decide_eq_true_eq, not_forall]
  constructor
  · rintro ⟨p, hp, hnn⟩
    exact ⟨p, hp, not_not.mp hnn⟩
  · rintro ⟨p, hp, ht⟩
    exact ⟨p, hp, not_not.mpr ht⟩

/-- C1: `isPrivate()` is true iff a packet tagged `secret_key` exists
among the owned packets, and for an aggregate with exactly one primary
key packet, `isPublic()` and `isPrivate()` are never both true. -/
theorem C1_isPrivate_secret_tag (k : Key) :
    (isPrivate k = true ↔ ∃ p ∈ k.packets, p.tag = Tag.secretKey) ∧
    (primaryCount k = 1 → ¬(isPublic k = true ∧ isPrivate k = true)) := by
  constructor
  · exact filter_tag_nonempty_iff k Tag.secretKey
  · intro h1 hc
    obtain ⟨hpub, hpriv⟩ := hc
    obtain ⟨p, hpm, hpt⟩ := (filter_tag_nonempty_iff k Tag.publicKey).mp hpub
    obtain ⟨q, hqm, hqt⟩ := (filter_tag_nonempty_iff k Tag.secretKey).mp hpriv
    obtain ⟨a, ha⟩ := List.length_eq_one.mp h1
    have hpf : p ∈ k.packets.filter
        (fun r => decide (r.tag = Tag.publicKey ∨ r.tag = Tag.secretKey)) :=
      List.mem_filter.mpr ⟨hpm, by simp [hpt]⟩
    have hqf : q ∈ k.packets.filter
        (fun r => decide (r.tag = Tag.publicKey ∨ r.tag = Tag.secretKey)) :=
      List.mem_filter.mpr ⟨hqm, by simp [hqt]⟩
    rw [ha, List.mem_singleton] at hpf hqf
    rw [hpf] at hpt
    rw [hqf] at hqt
    exact absurd (hpt.symm.trans hqt) (by decide)

/-- C1 witness: a private aggregate with exactly one primary key packet
(a secret primary, a secret subkey and a user id). -/
theorem C1_isPrivate_secret_tag_witness :
    primaryCount kC3 = 1 ∧
    (isPrivate kC3 = true ↔ ∃ p ∈ kC3.packets, p.tag = Tag.secretKey) ∧
    ¬(isPublic kC3 = true ∧ isPrivate kC3 = true) :=
  ⟨by decide, (C1_isPrivate_secret_tag kC3).1,
    (C1_isPrivate_secret_tag kC3).2 (by decide)⟩

/-- C2 counterexample: a successful `decrypt` from the Opaque state does
not land in the spec's exclusive Decoded state — the source never clears
`this.encrypted`, so the container holds the ciphertext and the decoded
stream at once. -/
theorem C2_state_transition_counterexample :
    specOpaque c2s0 ∧
    symDecrypt c2Model 9 [0] c2s0 = some c2s1 ∧
    ¬ specDecoded c2s1 ∧
    c2s1.encrypted.isSome = true ∧ c2s1.packets ≠ [] := by
  refine ⟨⟨rfl, rfl⟩, rfl, ?_, rfl, by decide⟩
  intro h
  exact absurd h.1 (by decide)

/-- C2 amended: a successful `decrypt` parses the CFB-decrypted bytes
into the inner packet stream but leaves the opaque ciphertext field in
place, and `encrypt` overwrites the ciphertext from the serialized inner
stream while leaving the stream in place; the Opaque and Decoded
representations are not exclusive. -/
theorem C2_state_transition_amended {P : Type} (m : CfbModel P) (algo : Nat)
    (key ct : List Nat) (s s2 : SymEnc P) (h : s.encrypted = some ct) :
    symDecrypt m algo key s =
      some { encrypted := some ct,
             packets := m.plistRead (m.cfbDecrypt algo key ct true) } ∧
    (symEncrypt m algo key s2).packets = s2.packets ∧
    (symEncrypt m algo key s2).encrypted =
      some (m.cfbEncrypt (m.getPrefixRandom algo) algo (m.plistWrite s2.packets) key true) := by
  refine ⟨?_, rfl, rfl⟩
  cases s with
  | mk e ps =>
    cases h
    rfl

/-- C2 amended witness: the identity collaborator model on the concrete
container `c2s0`. -/
theorem C2_state_transition_amended_witness :
    c2s0.encrypted = some [1, 2] ∧
    (symDecrypt c2Model 9 [0] c2s0 =
      some { encrypted := some [1, 2],
             packets := c2Model.plistRead (c2Model.cfbDecrypt 9 [0] [1, 2] true) } ∧
     (symEncrypt c2Model 9 [0] c2s1).packets = c2s1.packets ∧
     (symEncrypt c2Model 9 [0] c2s1).encrypted =
       some (c2Model.cfbEncrypt (c2Model.getPrefixRandom 9) 9
         (c2Model.plistWrite c2s1.packets) [0] true)) :=
  ⟨rfl, C2_state_transition_amended c2Model 9 [0] [1, 2] c2s0 c2s1 rfl⟩

/-- The decrypt pass over a packetlist split around the first failing
secret packet `q`: every secret packet before `q` is replaced by its
decrypted version, `q` and everything after it are left untouched, and
the pass reports `false`. -/
theorem decryptLoop_first_failure (dec : Packet → Option Packet)
    (xs ys : List Packet) (q : Packet)
    (hq : isSecretTagged q = true) (hfail : dec q = none)
    (hok : ∀ p ∈ xs, isSecretTagged p = true → (dec p).isSome = true) :
    decryptLoop dec (xs ++ q :: ys) =
      (false, xs.map (fun p => if isSecretTagged p then (dec p).getD p else p) ++ q :: ys) := by
  induction xs with
  | nil => simp [decryptLoop, hq, hfail]
  | cons p xs ih =>
    have hok2 : ∀ r ∈ xs, isSecretTagged r = true → (dec r).isSome = true :=
      fun r hr => hok r (List.mem_cons_of_mem p hr)
    by_cases hs : isSecretTagged p = true
    · obtain ⟨p2, hp2⟩ :=
        Option.isSome_iff_exists.mp (hok p (List.mem_cons_self p xs) hs)

      simp [decryptLoop, hs, hp2, ih hok2]
    · have hs2 : isSecretTagged p = false := Bool.not_eq_true _ ▸ eq_false_of_ne_true hs
      simp [decryptLoop, hs2, ih hok2]

/-- C3: `Key.decrypt(passphrase)` walks the secret-tagged packets in
stream order; when the per-packet decrypt fails first on packet `q`, the
whole operation returns `false`, packets before `q` keep their decrypted
state (no rollback), and `q` and all later packets are untouched. -/
theorem C3_decrypt_stops_at_first_failure (dec : Packet → Option Packet) (k : Key)
    (xs ys : List Packet) (q : Packet)
    (hsplit : k.packets = xs ++ q :: ys)
    (hq : isSecretTagged q = true) (hfail : dec q = none)
    (hok : ∀ p ∈ xs, isSecretTagged p = true → (dec p).isSome = true) :
    keyDecrypt dec k =
      (false,
        { packets :=
            xs.map (fun p => if isSecretTagged p then (dec p).getD p else p) ++ q :: ys }) := by
  unfold keyDecrypt
  rw [hsplit, decryptLoop_first_failure dec xs ys q hq hfail hok]

/-- C3 witness: the two-subkey secret key `kC3` under the collaborator
`decC3`, which decrypts the primary and fails on the first subkey. -/
theorem C3_decrypt_stops_at_first_failure_witness :
    kC3.packets = [pSec1] ++ pSub2 :: [pSub3] ∧
    isSecretTagged pSub2 = true ∧ decC3 pSub2 = none ∧
    keyDecrypt decC3 kC3 =
      (false,
        { packets :=
            [pSec1].map (fun p => if isSecretTagged p then (decC3 p).getD p else p)
              ++ pSub2 :: [pSub3] }) :=
  ⟨rfl, rfl, by decide,
    C3_decrypt_stops_at_first_failure decC3 kC3 [pSec1] [pSub3] pSub2 rfl rfl
      (by decide) (by decide)⟩

/-- The decrypt pass is the identity, with result `true`, on a
packetlist containing no secret-tagged packet. -/
theorem decryptLoop_no_secret (dec : Packet → Option Packet) (l : List Packet)
    (h : ∀ p ∈ l, isSecretTagged p = false) :
    decryptLoop dec l = (true, l) := by
  induction l with
  | nil => rfl
  | cons p ps ih =>
    have hp := h p (List.mem_cons_self p ps)
    simp [decryptLoop, hp, ih (fun r hr => h r (List.mem_cons_of_mem p hr))]

/-- C10: on an aggregate with no packet tagged `secret_key` or
`secret_subkey`, `Key.decrypt` returns `true` for every per-packet
collaborator (hence every passphrase) and mutates no packet. -/
theorem C10_decrypt_pure_public (dec : Packet → Option Packet) (k : Key)
    (h : ∀ p ∈ k.packets, isSecretTagged p = false) :
    keyDecrypt dec k = (true, k) := by
  unfold keyDecrypt
  rw [decryptLoop_no_secret dec k.packets h]

/-- C10 witness: the purely public aggregate `kPub` under an
always-failing per-packet collaborator still decrypts successfully and
unchanged. -/
theorem C10_decrypt_pure_public_witness :
    (∀ p ∈ kPub.packets, isSecretTagged p = false) ∧
    keyDecrypt decFail kPub = (true, kPub) :=
  ⟨by decide, C10_decrypt_pure_public decFail kPub (by decide)⟩

/-- C4: on an aggregate owning a primary key packet,
`getEncryptionKeyPacket` computes the spec's selection — first subkey in
stream order whose algorithm is neither DSA nor RSA-sign-only, else the
primary key under the same exclusion, else none. -/
theorem C4_encryptionKeyPacket_spec (k : Key) (h : (getKeyPacket k).isSome = true) :
    getEncryptionKeyPacket k = Except.ok (encryptionKeyPacketSpec k) := by
  obtain ⟨p0, hp0⟩ := Option.isSome_iff_exists.mp h
  have hpred : isValidEncryptionKey = (fun p : Packet =>
      decide (p.algorithm ≠ Algorithm.dsa ∧ p.algorithm ≠ Algorithm.rsa_sign)) := by
    funext p
    simp [isValidEncryptionKey, Bool.decide_and]
  unfold getEncryptionKeyPacket encryptionKeyPacketSpec
  rw [hpred, hp0]
  cases hfind : (getSubkeyPackets k).find? (fun p =>
      decide (p.algorithm ≠ Algorithm.dsa ∧ p.algorithm ≠ Algorithm.rsa_sign)) with
  | some s => rfl
  | none =>
    by_cases hv : p0.algorithm ≠ Algorithm.dsa ∧ p0.algorithm ≠ Algorithm.rsa_sign
    · simp [hv]
    · simp [hv]

/-- C4 witness: the aggregate whose only key packet is a DSA primary key,
where the selection is `none`. -/
theorem C4_encryptionKeyPacket_spec_witness :
    (getKeyPacket kDsa).isSome = true ∧
    getEncryptionKeyPacket kDsa = Except.ok (encryptionKeyPacketSpec kDsa) ∧
    encryptionKeyPacketSpec kDsa = none :=
  ⟨rfl, C4_encryptionKeyPacket_spec kDsa rfl, rfl⟩

/-- The signing loop over a list with no `null` element is the list
search for a signing-capable algorithm, and never a `TypeError`. -/
theorem findSigningLoop_map_some (l : List Packet) :
    findSigningLoop (l.map some) =
      Except.ok (l.find? (fun p => signingAlgorithms.any (fun a => decide (p.algorithm = a)))) := by
  induction l with
  | nil => rfl
  | cons p l ih =>
    by_cases hs : (signingAlgorithms.any (fun a => decide (p.algorithm = a))) = true
    · simp [findSigningLoop, List.find?, hs]
    · simp [findSigningLoop, List.find?, hs, ih]

/-- C5: on an aggregate owning a primary key packet,
`getSigningKeyPacket` computes the spec's selection — the first packet,
primary first then subkeys in stream order, whose algorithm is
RSA-encrypt-sign, RSA-sign or DSA, and none when no key packet has a
signing-capable algorithm. -/
theorem C5_signingKeyPacket_spec (k : Key) (h : (getKeyPacket k).isSome = true) :
    getSigningKeyPacket k = Except.ok (signingKeyPacketSpec k) := by
  obtain ⟨p0, hp0⟩ := Option.isSome_iff_exists.mp h
  have hpred : (fun p : Packet => signingAlgorithms.any (fun a => decide (p.algorithm = a))) =
      (fun p : Packet => decide (p.algorithm = Algorithm.rsa_encrypt_sign ∨
        p.algorithm = Algorithm.rsa_sign ∨ p.algorithm = Algorithm.dsa)) := by
    funext p
    simp [signingAlgorithms, Bool.decide_or]
  unfold getSigningKeyPacket signingKeyPacketSpec getAllKeyPackets
  rw [hp0]
  have hmap : some p0 :: (getSubkeyPackets k).map some
      = (p0 :: getSubkeyPackets k).map some := rfl
  rw [hmap, findSigningLoop_map_some, hpred]
  rfl

/-- C5 witness: the scenario aggregate with an RSA-sign secret primary
and an RSA-encrypt-sign secret subkey, whose signing key is the primary
(and whose encryption key, for contrast, is the subkey — see the spec's
paired scenario). -/
theorem C5_signingKeyPacket_spec_witness :
    (getKeyPacket kC5).isSome = true ∧
    getSigningKeyPacket kC5 = Except.ok (signingKeyPacketSpec kC5) ∧
    signingKeyPacketSpec kC5 = some pSec1 :=
  ⟨rfl, C5_signingKeyPacket_spec kC5 rfl, by decide⟩

/-- Function `findKey` agrees with the spec's search: the first packet, in order,
whose key ID equals some candidate. -/
theorem findKey_eq_spec (keys : List Packet) (ids : List KeyId) :
    findKey keys ids = findByKeyIdsSpec keys ids := by
  unfold findKey findByKeyIdsSpec
  congr 1
  funext p
  by_cases h : ∃ kid ∈ ids, p.keyId = kid
  · have h2 : ids.any (fun kid => decide (p.keyId = kid)) = true := by
      obtain ⟨kid, hk, he⟩ := h
      exact List.any_eq_true.mpr ⟨kid, hk, by simpa using he⟩
    rw [h2, decide_eq_true h]
  · have h2 : ids.any (fun kid => decide (p.keyId = kid)) = false := by
      rw [List.any_eq_false]
      intro kid hk
      simp only [decide_eq_true_eq]
      exact fun he => h ⟨kid, hk, he⟩
    rw [h2, decide_eq_false h]

/-- C6: `getPublicKeyPacket`/`getPrivateKeyPacket` filter the owned
packets to the requested role's tags and return the first packet whose
key ID equals some candidate; the result is `none` on an empty candidate
list and on a list matching no owned key ID. -/
theorem C6_findByKeyIds_filter_then_first (k : Key) (ids : List KeyId) :
    getPublicKeyPacket k ids =
      findByKeyIdsSpec (k.packets.filter
        (fun p => decide (p.tag = Tag.publicKey ∨ p.tag = Tag.publicSubkey))) ids ∧
    getPrivateKeyPacket k ids =
      findByKeyIdsSpec (k.packets.filter
        (fun p => decide (p.tag = Tag.secretKey ∨ p.tag = Tag.secretSubkey))) ids ∧
    getPublicKeyPacket k [] = none ∧
    getPrivateKeyPacket k [] = none ∧
    ((∀ p ∈ k.packets, p.keyId ∉ ids) →
      getPublicKeyPacket k ids = none ∧ getPrivateKeyPacket k ids = none) := by
  have hnil : ∀ keys : List Packet, findKey keys [] = none := by
    intro keys
    apply List.find?_eq_none.mpr
    intro p _
    simp
  have hmiss : ∀ keys : List Packet, (∀ p ∈ keys, p.keyId ∉ ids) →
      findKey keys ids = none := by
    intro keys hkeys
    apply List.find?_eq_none.mpr
    intro p hp
    simp only [List.any_eq_true, decide_eq_true_eq, not_exists, not_and]
    intro kid hk he
    exact hkeys p hp (he ▸ hk)
  refine ⟨findKey_eq_spec _ ids, findKey_eq_spec _ ids, hnil _, hnil _, fun h => ⟨?_, ?_⟩⟩
  · exact hmiss _ (fun p hp => h p (List.mem_filter.mp hp).1)
  · exact hmiss _ (fun p hp => h p (List.mem_filter.mp hp).1)

/-- C6 witness: the purely public aggregate `kPub` with non-matching
candidates (and, for the positive case, the candidate `6` selecting the
subkey with that key ID). -/
theorem C6_findByKeyIds_filter_then_first_witness :
    (∀ p ∈ kPub.packets, p.keyId ∉ [KeyId.mk 1, KeyId.mk 2]) ∧
    getPublicKeyPacket kPub [KeyId.mk 1, KeyId.mk 2] = none ∧
    getPrivateKeyPacket kPub [KeyId.mk 1, KeyId.mk 2] = none ∧
    getPublicKeyPacket kPub [] = none ∧
    getPublicKeyPacket kPub [KeyId.mk 6] = some pPub6 :=
  ⟨by decide,
    ((C6_findByKeyIds_filter_then_first kPub [KeyId.mk 1, KeyId.mk 2]).2.2.2.2 (by decide)).1,
    ((C6_findByKeyIds_filter_then_first kPub [KeyId.mk 1, KeyId.mk 2]).2.2.2.2 (by decide)).2,
    (C6_findByKeyIds_filter_then_first kPub [KeyId.mk 1, KeyId.mk 2]).2.2.1,
    by decide⟩

/-- The `toPublic` loop body is idempotent: a replacement is tagged
`public_key`/`public_subkey`, so a second pass leaves it alone. -/
theorem toPublicStep_idem (derive : Packet → Algorithm × KeyId × List Nat) (p : Packet) :
    toPublicStep derive (toPublicStep derive p) = toPublicStep derive p := by
  by_cases h1 : p.tag = Tag.secretKey
  · simp [toPublicStep, h1, derivedPublicPacket]
  · by_cases h2 : p.tag = Tag.secretSubkey
    · simp [toPublicStep, h1, h2, derivedPublicPacket]
    · simp [toPublicStep, h1, h2]

/-- C7: `toPublic` replaces, position by position, every `secret_key`
(resp. `secret_subkey`) packet with its derived `public_key`
(resp. `public_subkey`) counterpart and leaves all other packets
unchanged; no secret-tagged packet remains, and applying it twice gives
the same packet list as applying it once. -/
theorem C7_toPublic_replaces_in_place (derive : Packet → Algorithm × KeyId × List Nat)
    (k : Key) :
    (toPublic derive k).packets.length = k.packets.length ∧
    (∀ i : Nat, (toPublic derive k).packets[i]? =
      (k.packets[i]?).map (fun p =>
        if p.tag = Tag.secretKey then derivedPublicPacket derive Tag.publicKey p
        else if p.tag = Tag.secretSubkey then derivedPublicPacket derive Tag.publicSubkey p
        else p)) ∧
    (∀ p ∈ (toPublic derive k).packets,
      p.tag ≠ Tag.secretKey ∧ p.tag ≠ Tag.secretSubkey) ∧
    toPublic derive (toPublic derive k) = toPublic derive k := by
  refine ⟨List.length_map _ _, fun i => ?_, fun p hp => ?_, ?_⟩
  · rw [toPublic, List.getElem?_map]
    rfl
  · obtain ⟨q, _, rfl⟩ := List.mem_map.mp hp
    by_cases h1 : q.tag = Tag.secretKey
    · simp [toPublicStep, h1, derivedPublicPacket]
    · by_cases h2 : q.tag = Tag.secretSubkey
      · simp [toPublicStep, h1, h2, derivedPublicPacket]
      · simp only [toPublicStep, h1, h2, if_false]
        exact ⟨h1, h2⟩
  · show toPublic derive { packets := k.packets.map (toPublicStep derive) } = _
    unfold toPublic
    rw [List.map_map]
    exact congrArg Key.mk (List.map_congr_left (fun p _ => toPublicStep_idem derive p))

/-- C7 witness: the mixed aggregate `kC7` (secret primary, user id,
secret subkey) under the concrete derivation `deriveC7`. -/
theorem C7_toPublic_replaces_in_place_witness :
    (toPublic deriveC7 kC7).packets.length = kC7.packets.length ∧
    (toPublic deriveC7 kC7).packets[0]? =
      (kC7.packets[0]?).map (fun p =>
        if p.tag = Tag.secretKey then derivedPublicPacket deriveC7 Tag.publicKey p
        else if p.tag = Tag.secretSubkey then derivedPublicPacket deriveC7 Tag.publicSubkey p
        else p) ∧
    (∀ p ∈ (toPublic deriveC7 kC7).packets,
      p.tag ≠ Tag.secretKey ∧ p.tag ≠ Tag.secretSubkey) ∧
    toPublic deriveC7 (toPublic deriveC7 kC7) = toPublic deriveC7 kC7 :=
  ⟨(C7_toPublic_replaces_in_place deriveC7 kC7).1,
    (C7_toPublic_replaces_in_place deriveC7 kC7).2.1 0,
    (C7_toPublic_replaces_in_place deriveC7 kC7).2.2.1,
    (C7_toPublic_replaces_in_place deriveC7 kC7).2.2.2⟩

/-- C8: evaluation at the failing input — an aggregate with no primary
key packet.  `getAllKeyPackets()` yields a list headed by `null`, and
`getKeyIds()` then calls `getKeyId()` on that `null`, a `TypeError`
crash rather than the subkeys' ids or an explicit failure. -/
theorem C8_missing_primary_keyIds_crash :
    getKeyPacket kC8 = none ∧
    getAllKeyPackets kC8 = [none, some pPub6] ∧
    getKeyIds kC8 = Except.error JsError.typeError :=
  ⟨rfl, rfl, rfl⟩

/-- C9: assuming the CFB collaborator's decrypt inverts its encrypt and
the packetlist codec round-trips, `encrypt(algo, key)` followed by
`decrypt(algo, key)` on the container restores the inner packet stream
and hence its serialized bytes. -/
theorem C9_encrypt_decrypt_roundtrip {P : Type} (m : CfbModel P) (algo : Nat)
    (key : List Nat) (s : SymEnc P)
    (hcfb : ∀ pref data,
      m.cfbDecrypt algo key (m.cfbEncrypt pref algo data key true) true = data)
    (hpl : ∀ ps, m.plistRead (m.plistWrite ps) = ps) :
    (symDecrypt m algo key (symEncrypt m algo key s)).map (fun t => t.packets) =
      some s.packets ∧
    (symDecrypt m algo key (symEncrypt m algo key s)).map (fun t => m.plistWrite t.packets) =
      some (m.plistWrite s.packets) := by
  constructor <;> simp [symEncrypt, symDecrypt, hcfb, hpl]

/-- C9 witness: the shift-by-one collaborator model on the concrete
container `c9s`. -/
theorem C9_encrypt_decrypt_roundtrip_witness :
    (symDecrypt c9Model 7 [3] (symEncrypt c9Model 7 [3] c9s)).map (fun t => t.packets) =
      some c9s.packets ∧
    (symDecrypt c9Model 7 [3] (symEncrypt c9Model 7 [3] c9s)).map
        (fun t => c9Model.plistWrite t.packets) =
      some (c9Model.plistWrite c9s.packets) :=
  C9_encrypt_decrypt_roundtrip c9Model 7 [3] c9s
    (fun pref data => by simp [c9Model, List.map_map, Function.comp_def])
    (fun ps => rfl)

end OpenPGP
